import Mathlib

set_option linter.unusedVariables false

/-
Shallow embedding of the image repository/cache subsystem of the
`stargate-timeline` repository.

Two source variants of the cache module are embedded:

* namespace `ImageCache`   — `src/src/lib/image-cache.ts` (data-URL references,
  read-time size validation with deletion of undersized blobs);
* namespace `ImageCacheV2` — `src/unnamed/part_000` (static-path references,
  metadata rebuild from files and an in-query consistency check).

Modelling conventions:
* Calendar-day dates are ISO `YYYY-MM-DD` strings.  The source compares dates
  by parsing them with `new Date(...)`; on ISO day strings that order coincides
  with lexicographic string order, which is the order used here.
* Blob bytes are `List Nat`; only their length is ever inspected by the code.
* The opaque image reference produced by the code (a `data:image/png;base64,`
  URL, a caller-supplied URL, or a `/stargate-timeline/cache/<date>.png`
  static path) is modelled by the inductive `ImageRef`, whose constructors
  carry exactly the data the corresponding string is built from.
* File-system state is passed explicitly: the metadata JSON file is an
  `Option CacheMetadata`, the blob directory a function from file name to
  optional bytes (for `ImageCache`) or a listing of file names with
  modification times (for `ImageCacheV2`).  I/O failures that the source
  swallows (directory creation, best-effort metadata save, best-effort delete)
  are modelled by their success path; a failed metadata read is the `none`
  case of the option.
* `Date.now()` is passed in as an explicit `now : Nat` argument.
-/

/-- Raw blob bytes (the source's `Buffer`), one `Nat` per byte. -/
abbrev Bytes := List Nat

/-- The opaque image reference strings the source produces.
`dataUrl bytes` stands for `data:image/png;base64,<base64 of bytes>`;
`staticPath d` stands for `/stargate-timeline/cache/<d>.png`;
`external u` is any caller-supplied URL string already stored in metadata. -/
inductive ImageRef where
  | dataUrl (bytes : Bytes)
  | staticPath (date : String)
  | external (u : String)
  deriving DecidableEq

/-- The source's `CachedImage` record: `{ date, imageUrl, timestamp }`. -/
structure CachedImage where
  date : String
  imageUrl : ImageRef
  timestamp : Nat
  deriving DecidableEq

/-- A bounding box `[minLon, minLat, maxLon, maxLat]`; the source stores four
JS numbers that are only ever copied, so exact rationals are used. -/
abbrev Bbox := ℚ × ℚ × ℚ × ℚ

/-- The source's `CacheMetadata` record: `{ bbox, images, lastUpdated }`,
persisted as one JSON document (`metadata.json`). -/
structure CacheMetadata where
  bbox : Bbox
  images : List CachedImage
  lastUpdated : Nat
  deriving DecidableEq

/-- The zero bounding box `[0, 0, 0, 0]` used as the default when `addImages`
creates a fresh document. -/
def zeroBbox : Bbox := (0, 0, 0, 0)

/-- The calendar-day order on ISO `YYYY-MM-DD` strings.  The source compares
`new Date(x)` values numerically; on ISO day strings that order coincides with
lexicographic string order, stated here directly on the character lists. -/
def strLe (x y : String) : Prop := ¬ List.Lex (· < ·) y.data x.data

instance : DecidableRel strLe := fun x y =>
  inferInstanceAs (Decidable (¬ List.Lex (· < ·) y.data x.data))

instance : IsTotal String strLe :=
  ⟨fun x y => by
    by_cases h : List.Lex (· < ·) y.data x.data
    · exact Or.inr (fun h2 => asymm h h2)
    · exact Or.inl h⟩

instance : IsTrans String strLe :=
  ⟨fun x y z h1 h2 h3 => by
    haveI : IsTrichotomous (List Char) (List.Lex (· < ·)) := List.Lex.isTrichotomous _
    rcases trichotomous_of (List.Lex (· < ·)) z.data y.data with h4 | h4 | h4
    · exact h2 h4
    · rw [h4] at h3
      exact h1 h3
    · exact h1 (IsTrans.trans _ _ _ h4 h3)⟩

/-- The comparator of the source's `.sort((a, b) => new Date(a.date) - new Date(b.date))`:
ascending by date. -/
def dateLe (x y : CachedImage) : Prop := strLe x.date y.date

instance : DecidableRel dateLe := fun x y => inferInstanceAs (Decidable (strLe x.date y.date))

instance : IsTotal CachedImage dateLe :=
  ⟨fun x y => IsTotal.total (r := strLe) x.date y.date⟩

instance : IsTrans CachedImage dateLe :=
  ⟨fun _ _ _ h h2 => IsTrans.trans (r := strLe) _ _ _ h h2⟩

namespace ImageCache

/-- The durable state an `ImageCache` instance (from `src/src/lib/image-cache.ts`)
operates on: the `metadata.json` document (absent or present) and the blob
directory, as a map from file name to stored bytes. -/
structure CacheState where
  metadata : Option CacheMetadata
  blobs : String → Option Bytes

/-- `getCacheKey` (line 33): the blob file name for a date. -/
def getCacheKey (date : String) : String := date ++ ".png"

/-- `loadMetadata` (line 37): read and parse `metadata.json`; missing or
malformed data yields `none`. -/
def loadMetadata (s : CacheState) : Option CacheMetadata := s.metadata

/-- `saveMetadata` (line 46): persist the full document (success path of the
best-effort write). -/
def saveMetadata (s : CacheState) (m : CacheMetadata) : CacheState :=
  { s with metadata := some m }

/-- The 10 KB minimum byte length for a valid satellite image (line 149). -/
def minValidBytes : Nat := 10000

/-- Result component of `getCachedImagePath` (lines 137-166): `none` when the
blob is missing or undersized, otherwise the data-URL reference to its bytes. -/
def readImage (s : CacheState) (d : String) : Option ImageRef :=
  match s.blobs (getCacheKey d) with
  | none => none
  | some bytes =>
    if bytes.length < minValidBytes then none else some (ImageRef.dataUrl bytes)

/-- State component of `getCachedImagePath` (lines 137-166): an undersized
blob is deleted (`fs.unlink`), anything else leaves the store unchanged. -/
def readImageState (s : CacheState) (d : String) : CacheState :=
  match s.blobs (getCacheKey d) with
  | none => s
  | some bytes =>
    if bytes.length < minValidBytes then
      { s with blobs := fun k => if k = getCacheKey d then none else s.blobs k }
    else s

/-- `getCachedImagePath` (lines 137-166): read the blob for a date, returning
its data URL, or `null` (deleting the blob) when it is smaller than
`minValidBytes`, or `null` when it is missing. -/
def getCachedImagePath (s : CacheState) (d : String) : Option ImageRef × CacheState :=
  (readImage s d, readImageState s d)

/-- The `for` loop of `getCachedImages` (lines 70-82): keep each metadata entry
whose date lies in `[a, b]` and whose blob read succeeds, rewriting its
`imageUrl` to the freshly read reference; the blob-store state threads through
the reads (undersized blobs are deleted as they are encountered). -/
def collectValidImages (a b : String) : CacheState → List CachedImage → List CachedImage × CacheState
  | s, [] => ([], s)
  | s, img :: rest =>
    if strLe a img.date ∧ strLe img.date b then
      match readImage s img.date with
      | some r =>
        (({ img with imageUrl := r }) ::
            (collectValidImages a b (readImageState s img.date) rest).1,
          (collectValidImages a b (readImageState s img.date) rest).2)
      | none => collectValidImages a b (readImageState s img.date) rest
    else collectValidImages a b s rest

/-- `getCachedImages` (lines 55-89): load metadata (absent ⇒ `null`), filter
entries to the inclusive date range with a valid blob, sort ascending by date,
and return `null` instead of an empty list.  The `bbox` argument is accepted
and ignored, as in the source. -/
def getCachedImages (s : CacheState) (bbox : Bbox) (startDate endDate : String) :
    Option (List CachedImage) × CacheState :=
  match loadMetadata s with
  | none => (none, s)
  | some metadata =>
    let out := collectValidImages startDate endDate s metadata.images
    let sorted := List.insertionSort dateLe out.1
    (if sorted.length > 0 then some sorted else none, out.2)

/-- `cacheImage` (lines 91-106): write the bytes to the date's blob file and
return a data URL for them.  No validation is performed here. -/
def cacheImage (s : CacheState) (date : String) (imageData : Bytes) : ImageRef × CacheState :=
  (ImageRef.dataUrl imageData,
    { s with blobs := fun k => if k = getCacheKey date then some imageData else s.blobs k })

/-- `addImages` (lines 108-125): load the document (or a fresh one with the
zero bounding box), drop input entries whose date is already present, and if
anything is left, append it, stamp `lastUpdated`, and save. -/
def addImages (s : CacheState) (now : Nat) (newImages : List CachedImage) : CacheState :=
  let metadata := (loadMetadata s).getD
    { bbox := zeroBbox, images := [], lastUpdated := now }
  let existingDates : List String := metadata.images.map (fun img => img.date)
  let imagesToAdd := newImages.filter (fun img => decide (img.date ∉ existingDates))
  if imagesToAdd.length > 0 then
    saveMetadata s { metadata with images := metadata.images ++ imagesToAdd, lastUpdated := now }
  else s

/-- `getMissingDates` (lines 127-135): the candidate dates not present in the
index, in input order; with no index every candidate is missing. -/
def getMissingDates (s : CacheState) (availableDates : List String) : List String :=
  let existingDates : List String :=
    ((loadMetadata s).map (fun md => md.images.map (fun img => img.date))).getD []
  availableDates.filter (fun d => decide (d ∉ existingDates))

/-- The dates recorded in the index document (empty when no document exists);
a reading of the `existingDates` set built by the source. -/
def indexDates (s : CacheState) : List String :=
  ((loadMetadata s).map (fun md => md.images.map (fun img => img.date))).getD []

/-- An entry is servable in a state when its blob file exists and meets the
minimum size: exactly the condition under which `getCachedImagePath` returns a
reference rather than `null`. -/
def servable (s : CacheState) (img : CachedImage) : Prop :=
  ∃ bytes, s.blobs (getCacheKey img.date) = some bytes ∧ minValidBytes ≤ bytes.length

/-- No two entries of the list share a date (the spec's no-duplicate-dates
invariant on `entries`). -/
def NoDupDates (l : List CachedImage) : Prop :=
  List.Pairwise (fun x y => x.date ≠ y.date) l

end ImageCache

/-- The write-time validation slice of the `POST` route in
`src/src/pages/api/images.ts` (lines 382-398): a freshly fetched buffer is
handed to `cacheImage` only when it is strictly larger than 10000 bytes;
otherwise it is skipped and nothing is written. -/
def postCacheWriteStep (s : ImageCache.CacheState) (d : String) (bytes : Bytes) :
    ImageCache.CacheState :=
  if bytes.length > 10000 then (ImageCache.cacheImage s d bytes).2 else s

namespace ImageCacheV2

/-- A blob-directory listing entry for the `src/unnamed/part_000` variant:
a file name (as returned by `fs.readdir`) together with its modification time
(`fs.stat(...).mtime.getTime()`). -/
structure FileInfo where
  name : String
  mtime : Nat
  deriving DecidableEq

/-- The durable state the `src/unnamed/part_000` `ImageCache` operates on:
the `metadata.json` document and the listing of the blob directory's image
files. -/
structure State where
  metadata : Option CacheMetadata
  files : List FileInfo
  deriving DecidableEq

/-- The JS `name.endsWith(".png")` test, stated on character lists so that it
evaluates by reduction. -/
def endsWithPng (n : String) : Bool := ".png".data.isSuffixOf n.data

/-- Replace the first occurrence of `pat` in a character list, as JS
`String.prototype.replace` does with a string pattern. -/
def replaceFirst (pat rep : List Char) : List Char → List Char
  | [] => []
  | c :: cs =>
    if pat.isPrefixOf (c :: cs) then rep ++ (c :: cs).drop pat.length
    else c :: replaceFirst pat rep cs

/-- The date recovered from a blob file name (line 199): JS `replace` with a
string pattern drops the first occurrence of `.png`. -/
def stripPng (s : String) : String :=
  String.mk (replaceFirst ".png".data [] s.data)

/-- The hard-coded bounding box the rebuild writes (line 211). -/
def defaultBbox : Bbox :=
  (-99.8065975964918, 32.492551389316205, -99.7717279119445, 32.51217098523884)

/-- The document built by `rebuildMetadataFromFiles` (lines 191-221): one
entry per `.png` file in the directory listing, dated from the file name,
referenced by its static path, time-stamped with the file's modification
time; entries sorted ascending by date, bounding box reset to the default,
`lastUpdated` stamped with the current time. -/
def rebuildMetadataFromFiles (files : List FileInfo) (now : Nat) : CacheMetadata :=
  let pngFiles := files.filter (fun f => endsWithPng f.name)
  let images := pngFiles.map (fun f =>
    { date := stripPng f.name
      imageUrl := ImageRef.staticPath (stripPng f.name)
      timestamp := f.mtime : CachedImage })
  { bbox := defaultBbox
    images := List.insertionSort dateLe images
    lastUpdated := now }

/-- `rebuildMetadataFromFiles` as a state transformer: the rebuilt document is
saved over `metadata.json` (success path of `saveMetadata`). -/
def rebuildState (s : State) (now : Nat) : State :=
  { s with metadata := some (rebuildMetadataFromFiles s.files now) }

/-- The consistency check inside `getCachedImages` (lines 83-95): count the
`.png` files in the directory; when there are more than ten files beyond the
metadata entries, rebuild the metadata from the files and reload it;
otherwise keep the loaded document and state untouched. -/
def consistencyStep (s : State) (md : CacheMetadata) (now : Nat) : CacheMetadata × State :=
  let pngFiles := s.files.filter (fun f => endsWithPng f.name)
  if pngFiles.length > md.images.length + 10 then
    (rebuildMetadataFromFiles s.files now, rebuildState s now)
  else (md, s)

/-- `fileExists` (lines 37-46): `fs.access` on the date's blob file. -/
def fileExists (s : State) (date : String) : Bool :=
  (s.files.map (fun f => f.name)).contains (date ++ ".png")

/-- The filter loop of the V2 `getCachedImages` (lines 101-113): entries in
the inclusive range whose blob file exists, with `imageUrl` rewritten to the
static path. -/
def queryLoop (s : State) (a b : String) (imgs : List CachedImage) : List CachedImage :=
  (imgs.filter (fun img => decide (strLe a img.date ∧ strLe img.date b) && fileExists s img.date)).map
    (fun img => { img with imageUrl := ImageRef.staticPath img.date })

/-- The tail of the V2 `getCachedImages` once a document has loaded: run the
consistency check, filter, sort ascending by date, and return `null` instead
of an empty list. -/
def queryAfterLoad (s : State) (md : CacheMetadata) (a b : String) (now : Nat) :
    Option (List CachedImage) × State :=
  let checked := consistencyStep s md now
  let sorted := List.insertionSort dateLe (queryLoop checked.2 a b checked.1.images)
  (if sorted.length > 0 then some sorted else none, checked.2)

/-- The V2 `getCachedImages` (lines 66-120): when no document loads, rebuild
from the files and reload; then run the consistency check, filter to the
range by file existence, sort, and return `null` for an empty result. -/
def getCachedImages (s : State) (bbox : Bbox) (a b : String) (now : Nat) :
    Option (List CachedImage) × State :=
  match s.metadata with
  | some md => queryAfterLoad s md a b now
  | none =>
    let s1 := rebuildState s now
    match s1.metadata with
    | some md => queryAfterLoad s1 md a b now
    | none => (none, s1)

end ImageCacheV2

/-! Concrete fixtures used by witnesses and counterexamples. -/

/-- A 10000-byte buffer: exactly the minimum valid size. -/
def bigBytes : Bytes := List.replicate 10000 0

/-- A 500-byte buffer: below the validity threshold. -/
def smallBytes : Bytes := List.replicate 500 0

/-- A metadata entry for 2024-01-05. -/
def imgJan05 : CachedImage :=
  { date := "2024-01-05", imageUrl := ImageRef.external "u", timestamp := 42 }

/-- A state whose index holds the single entry `imgJan05` and whose blob store
holds a valid blob for it. -/
def sOne : ImageCache.CacheState :=
  { metadata := some { bbox := zeroBbox, images := [imgJan05], lastUpdated := 7 }
    blobs := fun k => if k = "2024-01-05.png" then some bigBytes else none }

/-- A completely empty state: no index document, no blobs. -/
def sEmpty : ImageCache.CacheState :=
  { metadata := none, blobs := fun _ => none }

/-- A state whose index holds one entry for 2024-02-01 whose blob is a
3-byte (undersized) file. -/
def sBad : ImageCache.CacheState :=
  { metadata := some
      { bbox := zeroBbox
        images := [{ date := "2024-02-01", imageUrl := ImageRef.external "v", timestamp := 1 }]
        lastUpdated := 7 }
    blobs := fun k => if k = "2024-02-01.png" then some [1, 2, 3] else none }

/-- The result list the January 2024 query returns on `sOne`: the single
entry, its reference rewritten to the data URL of its blob. -/
def resJan : List CachedImage :=
  [{ date := "2024-01-05", imageUrl := ImageRef.dataUrl bigBytes, timestamp := 42 }]

/-- Two distinct entries sharing the date 2024-01-01. -/
def dupA : CachedImage :=
  { date := "2024-01-01", imageUrl := ImageRef.external "a", timestamp := 0 }

/-- Second entry with the same date as `dupA`. -/
def dupB : CachedImage :=
  { date := "2024-01-01", imageUrl := ImageRef.external "b", timestamp := 1 }

/-- An index document with twenty entries (dates `0` … `19`). -/
def mdTwenty : CacheMetadata :=
  { bbox := zeroBbox
    images := (List.range 20).map (fun i =>
      { date := toString i, imageUrl := ImageRef.external "", timestamp := 0 })
    lastUpdated := 0 }

/-- A V2 state holding `mdTwenty` as its index while the blob directory is
empty: twenty dangling entries. -/
def sNoBlobs : ImageCacheV2.State :=
  { metadata := some mdTwenty, files := [] }

/-- A directory listing with two image files (out of date order) and one
non-image file. -/
def filesEx : List ImageCacheV2.FileInfo :=
  [{ name := "2024-01-02.png", mtime := 7 },
   { name := "metadata.json", mtime := 1 },
   { name := "2024-01-01.png", mtime := 3 }]

/-- The entry the rebuild constructs for the file `2024-01-01.png` of
`filesEx`. -/
def imgRebuilt : CachedImage :=
  { date := "2024-01-01", imageUrl := ImageRef.staticPath "2024-01-01", timestamp := 3 }

/-! ## Helper lemmas -/

namespace ImageCache

/-- The entries `addImages` would append to the document `md`. -/
def toAdd (md : CacheMetadata) (E : List CachedImage) : List CachedImage :=
  E.filter (fun img => decide (img.date ∉ md.images.map (fun i => i.date)))

/-- The fresh document `addImages` builds when no index exists. -/
def freshDoc (now : Nat) : CacheMetadata :=
  { bbox := zeroBbox, images := [], lastUpdated := now }

lemma addImages_eq (s : CacheState) (now : Nat) (E : List CachedImage) :
    addImages s now E =
      (if (toAdd ((loadMetadata s).getD (freshDoc now)) E).length > 0 then
        saveMetadata s
          { ((loadMetadata s).getD (freshDoc now)) with
            images := ((loadMetadata s).getD (freshDoc now)).images ++
              toAdd ((loadMetadata s).getD (freshDoc now)) E
            lastUpdated := now }
      else s) :=
  rfl

lemma indexDates_saveMetadata (s : CacheState) (m : CacheMetadata) :
    indexDates (saveMetadata s m) = m.images.map (fun i => i.date) :=
  rfl

lemma indexDates_eq_of_some {s : CacheState} {md : CacheMetadata} (hm : s.metadata = some md) :
    indexDates s = md.images.map (fun i => i.date) := by
  simp [indexDates, loadMetadata, hm]

lemma indexDates_eq_of_none {s : CacheState} (hm : s.metadata = none) :
    indexDates s = [] := by
  simp [indexDates, loadMetadata, hm]

lemma filter_not_mem_dates_eq_nil {E : List CachedImage} {dates : List String}
    (h : ∀ img ∈ E, img.date ∈ dates) :
    E.filter (fun img => decide (img.date ∉ dates)) = [] := by
  rw [List.filter_eq_nil_iff]
  intro a ha
  simp [h a ha]

lemma toAdd_eq_nil {md : CacheMetadata} {E : List CachedImage}
    (h : ∀ img ∈ E, img.date ∈ md.images.map (fun i => i.date)) :
    toAdd md E = [] :=
  filter_not_mem_dates_eq_nil h

/-- `addImages` is the identity when every input date is already indexed. -/
lemma addImages_no_new (s : CacheState) (now : Nat) (E : List CachedImage)
    (h : ∀ img ∈ E, img.date ∈ indexDates s) :
    addImages s now E = s := by
  rw [addImages_eq]
  cases hm : s.metadata with
  | none =>
    have hE : E = [] := by
      apply List.eq_nil_iff_forall_not_mem.mpr
      intro img hi
      have hmem := h img hi
      rw [indexDates_eq_of_none hm] at hmem
      exact (List.not_mem_nil _ hmem).elim
    subst hE
    simp [toAdd]
  | some md =>
    have h2 : ∀ img ∈ E, img.date ∈ md.images.map (fun i => i.date) := by
      intro img hi
      have hmem := h img hi
      rwa [indexDates_eq_of_some hm] at hmem
    simp [loadMetadata, hm, toAdd_eq_nil h2]

/-- After `addImages`, every input date is indexed. -/
lemma mem_indexDates_addImages (s : CacheState) (now : Nat) (E : List CachedImage) :
    ∀ img ∈ E, img.date ∈ indexDates (addImages s now E) := by
  intro img hi
  rw [addImages_eq]
  set md := (loadMetadata s).getD (freshDoc now) with hmd
  by_cases hd : img.date ∈ md.images.map (fun i => i.date)
  · by_cases hlen : (toAdd md E).length > 0
    · rw [if_pos hlen, indexDates_saveMetadata, List.map_append, List.mem_append]
      exact Or.inl hd
    · rw [if_neg hlen]
      cases hm : s.metadata with
      | none =>
        rw [indexDates_eq_of_none hm]
        rw [show md = freshDoc now by rw [hmd]; simp [loadMetadata, hm]] at hd
        simp [freshDoc] at hd
      | some md0 =>
        rw [indexDates_eq_of_some hm]
        rw [show md = md0 by rw [hmd]; simp [loadMetadata, hm]] at hd
        exact hd
  · have hmemF : img ∈ toAdd md E :=
      List.mem_filter.mpr ⟨hi, by simpa using hd⟩
    have hlen : (toAdd md E).length > 0 :=
      List.length_pos.mpr (List.ne_nil_of_mem hmemF)
    rw [if_pos hlen, indexDates_saveMetadata, List.map_append, List.mem_append]
    exact Or.inr (List.mem_map_of_mem _ hmemF)

lemma readImage_eq_some {s : CacheState} {d : String} {bytes : Bytes}
    (hb : s.blobs (getCacheKey d) = some bytes) (hbig : ¬ bytes.length < minValidBytes) :
    readImage s d = some (ImageRef.dataUrl bytes) := by
  simp [readImage, hb, hbig]

lemma readImage_eq_none_missing {s : CacheState} {d : String}
    (hb : s.blobs (getCacheKey d) = none) : readImage s d = none := by
  simp [readImage, hb]

lemma readImage_eq_none_small {s : CacheState} {d : String} {bytes : Bytes}
    (hb : s.blobs (getCacheKey d) = some bytes) (hsmall : bytes.length < minValidBytes) :
    readImage s d = none := by
  simp [readImage, hb, hsmall]

lemma servable_of_readImage_some {s : CacheState} {img : CachedImage} {r : ImageRef}
    (h : readImage s img.date = some r) : servable s img := by
  unfold readImage at h
  cases hb : s.blobs (getCacheKey img.date) with
  | none => rw [hb] at h; simp at h
  | some bytes =>
    rw [hb] at h
    by_cases hsmall : bytes.length < minValidBytes
    · simp [hsmall] at h
    · exact ⟨bytes, hb, Nat.le_of_not_lt hsmall⟩

lemma not_servable_of_readImage_none {s : CacheState} {img : CachedImage}
    (h : readImage s img.date = none) : ¬ servable s img := by
  rintro ⟨bytes, hb, hbig⟩
  rw [readImage_eq_some hb (Nat.not_lt_of_le hbig)] at h
  exact absurd h (by simp)

lemma readImageState_eq_of_valid {s : CacheState} {d : String} {r : ImageRef}
    (h : readImage s d = some r) : readImageState s d = s := by
  unfold readImage at h
  unfold readImageState
  cases hb : s.blobs (getCacheKey d) with
  | none => rfl
  | some bytes =>
    rw [hb] at h
    by_cases hsmall : bytes.length < minValidBytes
    · simp [hsmall] at h
    · simp [hsmall]

/-- A deletion performed by a read never flips the servability of any entry:
only undersized blobs are deleted, and those are unservable anyway. -/
lemma servable_readImageState {s : CacheState} {d : String} {img : CachedImage} :
    servable (readImageState s d) img ↔ servable s img := by
  unfold readImageState
  cases hb : s.blobs (getCacheKey d) with
  | none => exact Iff.rfl
  | some bytes =>
    by_cases hsmall : bytes.length < minValidBytes
    · show servable
        (if bytes.length < minValidBytes then
          { s with blobs := fun k => if k = getCacheKey d then none else s.blobs k }
        else s) img ↔ servable s img
      rw [if_pos hsmall]
      constructor
      · rintro ⟨b2, hb2, hbig⟩
        by_cases hk : getCacheKey img.date = getCacheKey d
        · simp [hk] at hb2
        · refine ⟨b2, ?_, hbig⟩
          simpa [hk] using hb2
      · rintro ⟨b2, hb2, hbig⟩
        by_cases hk : getCacheKey img.date = getCacheKey d
        · rw [hk] at hb2
          rw [hb] at hb2
          cases hb2
          exact absurd hsmall (Nat.not_lt_of_le hbig)
        · exact ⟨b2, by simpa [hk] using hb2, hbig⟩
    · show servable
        (if bytes.length < minValidBytes then
          { s with blobs := fun k => if k = getCacheKey d then none else s.blobs k }
        else s) img ↔ servable s img
      rw [if_neg hsmall]

/-- Every entry the `getCachedImages` loop keeps lies in the inclusive range. -/
lemma collectValid_mem_range {a b : String} :
    ∀ (l : List CachedImage) (s : CacheState) (img : CachedImage),
      img ∈ (collectValidImages a b s l).1 → strLe a img.date ∧ strLe img.date b := by
  intro l
  induction l with
  | nil => intro s img h; exact absurd h (by simp [collectValidImages])
  | cons i rest ih =>
    intro s img h
    by_cases hr : strLe a i.date ∧ strLe i.date b
    · rw [show collectValidImages a b s (i :: rest) =
          (match readImage s i.date with
            | some r =>
              (({ i with imageUrl := r }) ::
                  (collectValidImages a b (readImageState s i.date) rest).1,
                (collectValidImages a b (readImageState s i.date) rest).2)
            | none => collectValidImages a b (readImageState s i.date) rest)
          from by rw [collectValidImages, if_pos hr]] at h
      cases hread : readImage s i.date with
      | some r =>
        rw [hread] at h
        rcases List.mem_cons.mp h with heq | hmem
        · subst heq; exact hr
        · exact ih _ img hmem
      | none =>
        rw [hread] at h
        exact ih _ img h
    · rw [show collectValidImages a b s (i :: rest) = collectValidImages a b s rest
          from by rw [collectValidImages, if_neg hr]] at h
      exact ih _ img h

/-- Every entry the loop keeps originates in an in-range, servable metadata
entry of the same date. -/
lemma collectValid_mem_servable {a b : String} :
    ∀ (l : List CachedImage) (s : CacheState) (img : CachedImage),
      img ∈ (collectValidImages a b s l).1 →
      ∃ img0 ∈ l, img0.date = img.date ∧ servable s img0 := by
  intro l
  induction l with
  | nil => intro s img h; exact absurd h (by simp [collectValidImages])
  | cons i rest ih =>
    intro s img h
    by_cases hr : strLe a i.date ∧ strLe i.date b
    · rw [show collectValidImages a b s (i :: rest) =
          (match readImage s i.date with
            | some r =>
              (({ i with imageUrl := r }) ::
                  (collectValidImages a b (readImageState s i.date) rest).1,
                (collectValidImages a b (readImageState s i.date) rest).2)
            | none => collectValidImages a b (readImageState s i.date) rest)
          from by rw [collectValidImages, if_pos hr]] at h
      cases hread : readImage s i.date with
      | some r =>
        rw [hread] at h
        rcases List.mem_cons.mp h with heq | hmem
        · refine ⟨i, List.mem_cons_self i rest, ?_, servable_of_readImage_some hread⟩
          subst heq; rfl
        · rcases ih _ img hmem with ⟨img0, h0, hdate, hserv⟩
          rw [readImageState_eq_of_valid hread] at hserv
          exact ⟨img0, List.mem_cons_of_mem i h0, hdate, hserv⟩
      | none =>
        rw [hread] at h
        rcases ih _ img h with ⟨img0, h0, hdate, hserv⟩
        rw [servable_readImageState] at hserv
        exact ⟨img0, List.mem_cons_of_mem i h0, hdate, hserv⟩
    · rw [show collectValidImages a b s (i :: rest) = collectValidImages a b s rest
          from by rw [collectValidImages, if_neg hr]] at h
      rcases ih _ img h with ⟨img0, h0, hdate, hserv⟩
      exact ⟨img0, List.mem_cons_of_mem i h0, hdate, hserv⟩

/-- The loop returns nothing exactly when no metadata entry is both in range
and servable. -/
lemma collectValid_nil_iff {a b : String} :
    ∀ (l : List CachedImage) (s : CacheState),
      (collectValidImages a b s l).1 = [] ↔
        ∀ img ∈ l, ¬ (strLe a img.date ∧ strLe img.date b ∧ servable s img) := by
  intro l
  induction l with
  | nil => intro s; simp [collectValidImages]
  | cons i rest ih =>
    intro s
    by_cases hr : strLe a i.date ∧ strLe i.date b
    · rw [show collectValidImages a b s (i :: rest) =
          (match readImage s i.date with
            | some r =>
              (({ i with imageUrl := r }) ::
                  (collectValidImages a b (readImageState s i.date) rest).1,
                (collectValidImages a b (readImageState s i.date) rest).2)
            | none => collectValidImages a b (readImageState s i.date) rest)
          from by rw [collectValidImages, if_pos hr]]
      cases hread : readImage s i.date with
      | some r =>
        simp only []
        constructor
        · intro h; exact absurd h (by simp)
        · intro h
          exact absurd ⟨hr.1, hr.2, servable_of_readImage_some hread⟩
            (h i (List.mem_cons_self i rest))
      | none =>
        simp only []
        rw [ih]
        constructor
        · intro h
          intro img hmem
          rcases List.mem_cons.mp hmem with heq | hmem2
          · subst heq
            rintro ⟨_, _, hserv⟩
            exact not_servable_of_readImage_none hread hserv
          · intro hc
            exact h img hmem2 ⟨hc.1, hc.2.1, servable_readImageState.mpr hc.2.2⟩
        · intro h img hmem
          intro hc
          exact h img (List.mem_cons_of_mem i hmem)
            ⟨hc.1, hc.2.1, servable_readImageState.mp hc.2.2⟩
    · rw [show collectValidImages a b s (i :: rest) = collectValidImages a b s rest
          from by rw [collectValidImages, if_neg hr]]
      rw [ih]
      constructor
      · intro h img hmem
        rcases List.mem_cons.mp hmem with heq | hmem2
        · subst heq
          rintro ⟨h1, h2, _⟩
          exact hr ⟨h1, h2⟩
        · exact h img hmem2
      · intro h img hmem
        exact h img (List.mem_cons_of_mem i hmem)

/-- The first component of `getCachedImages` once a document has loaded. -/
lemma getCachedImages_fst_of_some {s : CacheState} {md : CacheMetadata}
    (hm : s.metadata = some md) (bbox : Bbox) (a b : String) :
    (getCachedImages s bbox a b).1 =
      (if (List.insertionSort dateLe (collectValidImages a b s md.images).1).length > 0 then
        some (List.insertionSort dateLe (collectValidImages a b s md.images).1)
      else none) := by
  simp only [getCachedImages, loadMetadata, hm]

lemma getCachedImages_fst_of_none {s : CacheState} (hm : s.metadata = none)
    (bbox : Bbox) (a b : String) :
    (getCachedImages s bbox a b).1 = none := by
  simp only [getCachedImages, loadMetadata, hm]

end ImageCache

/-! ## Claim theorems -/

/-- C2: every entry in the list returned by `getCachedImages bbox startDate
endDate` has a date within `[startDate, endDate]` inclusive (calendar-day
comparison, i.e. the order of ISO day strings), and the returned list is
sorted ascending by date. -/
theorem getCachedImages_range_and_sorted (s : ImageCache.CacheState) (bbox : Bbox)
    (a b : String) (res : List CachedImage)
    (h : (ImageCache.getCachedImages s bbox a b).1 = some res) :
    (∀ img ∈ res, strLe a img.date ∧ strLe img.date b) ∧ List.Sorted dateLe res := by
  cases hm : s.metadata with
  | none =>
    rw [ImageCache.getCachedImages_fst_of_none hm] at h
    simp at h
  | some md =>
    rw [ImageCache.getCachedImages_fst_of_some hm] at h
    by_cases hlen :
      (List.insertionSort dateLe (ImageCache.collectValidImages a b s md.images).1).length > 0
    · rw [if_pos hlen] at h
      obtain rfl := (Option.some.inj h).symm
      constructor
      · intro img hmem
        rw [List.mem_insertionSort] at hmem
        exact ImageCache.collectValid_mem_range _ _ _ hmem
      · exact List.sorted_insertionSort dateLe _
    · rw [if_neg hlen] at h
      simp at h

/-- C2 witness: on a state with one indexed entry for 2024-01-05 backed by a
10000-byte blob, the query over January 2024 returns that entry, in range and
sorted. -/
theorem getCachedImages_range_and_sorted_witness :
    (∀ img ∈ resJan, strLe "2024-01-01" img.date ∧ strLe img.date "2024-01-31") ∧
    List.Sorted dateLe resJan := by
  apply getCachedImages_range_and_sorted sOne zeroBbox "2024-01-01" "2024-01-31" resJan
  have hb : sOne.blobs (ImageCache.getCacheKey "2024-01-05") = some bigBytes := by
    show (if ImageCache.getCacheKey "2024-01-05" = "2024-01-05.png" then some bigBytes else none)
        = some bigBytes
    rw [if_pos (show ImageCache.getCacheKey "2024-01-05" = "2024-01-05.png" from rfl)]
  have hbig : ¬ bigBytes.length < ImageCache.minValidBytes := by
    simp only [bigBytes, List.length_replicate, ImageCache.minValidBytes]
    omega
  have hread : ImageCache.readImage sOne "2024-01-05" = some (ImageRef.dataUrl bigBytes) :=
    ImageCache.readImage_eq_some hb hbig
  have hcond : strLe "2024-01-01" imgJan05.date ∧ strLe imgJan05.date "2024-01-31" := by
    refine ⟨by decide, by decide⟩
  have hcoll :
      (ImageCache.collectValidImages "2024-01-01" "2024-01-31" sOne [imgJan05]).1 = resJan := by
    rw [ImageCache.collectValidImages.eq_2, if_pos hcond,
      show ImageCache.readImage sOne imgJan05.date = some (ImageRef.dataUrl bigBytes)
        from hread]
    simp [ImageCache.collectValidImages, resJan, imgJan05]
  rw [ImageCache.getCachedImages_fst_of_some (show sOne.metadata = some
      { bbox := zeroBbox, images := [imgJan05], lastUpdated := 7 } from rfl)]
  rw [show ({ bbox := zeroBbox, images := [imgJan05], lastUpdated := 7 } : CacheMetadata).images
      = [imgJan05] from rfl]
  rw [hcoll]
  simp [resJan, List.insertionSort, List.orderedInsert]

/-- C3: `getCachedImages` answers `none` exactly when either no index document
exists, or the document exists but none of its entries both falls in the
requested range and is backed by a valid (present, at-least-minimum-size)
blob; in every other case it returns a non-empty list — it never returns an
empty list. -/
theorem getCachedImages_absent_iff (s : ImageCache.CacheState) (bbox : Bbox) (a b : String) :
    ((ImageCache.getCachedImages s bbox a b).1 = none ↔
      (s.metadata = none ∨ ∃ md, s.metadata = some md ∧
        ∀ img ∈ md.images, ¬ (strLe a img.date ∧ strLe img.date b ∧ ImageCache.servable s img))) ∧
    (∀ res, (ImageCache.getCachedImages s bbox a b).1 = some res → res ≠ []) := by
  cases hm : s.metadata with
  | none =>
    refine ⟨?_, ?_⟩
    · rw [ImageCache.getCachedImages_fst_of_none hm]
      simp
    · intro res h
      rw [ImageCache.getCachedImages_fst_of_none hm] at h
      simp at h
  | some md =>
    refine ⟨?_, ?_⟩
    · rw [ImageCache.getCachedImages_fst_of_some hm]
      constructor
      · intro h
        by_cases hlen :
          (List.insertionSort dateLe (ImageCache.collectValidImages a b s md.images).1).length > 0
        · rw [if_pos hlen] at h
          simp at h
        · refine Or.inr ⟨md, rfl, ?_⟩
          have hnil : (ImageCache.collectValidImages a b s md.images).1 = [] := by
            have hperm :=
              (List.perm_insertionSort dateLe
                (ImageCache.collectValidImages a b s md.images).1).length_eq
            apply List.length_eq_zero.mp
            omega
          exact (ImageCache.collectValid_nil_iff _ _).mp hnil
      · rintro (hnone | ⟨md2, hmd2, hprop⟩)
        · cases hnone
        · obtain rfl := Option.some.inj hmd2
          have hnil : (ImageCache.collectValidImages a b s md.images).1 = [] :=
            (ImageCache.collectValid_nil_iff _ _).mpr hprop
          rw [hnil]
          simp
    · intro res h
      rw [ImageCache.getCachedImages_fst_of_some hm] at h
      by_cases hlen :
        (List.insertionSort dateLe (ImageCache.collectValidImages a b s md.images).1).length > 0
      · rw [if_pos hlen] at h
        obtain rfl := (Option.some.inj h).symm
        exact List.length_pos.mp hlen
      · rw [if_neg hlen] at h
        simp at h

/-- C3 witness: with no index document at all, the query answers `none`. -/
theorem getCachedImages_absent_iff_witness :
    (ImageCache.getCachedImages sEmpty zeroBbox "2024-01-01" "2024-01-31").1 = none :=
  (getCachedImages_absent_iff sEmpty zeroBbox "2024-01-01" "2024-01-31").1.mpr (Or.inl rfl)

/-- C4: a date whose stored blob is below the 10000-byte minimum is never
included in a `getCachedImages` result; reading it through
`getCachedImagePath` yields `none` and deletes the blob, so an immediate
second read cannot be satisfied either. -/
theorem undersized_blob_never_served (s : ImageCache.CacheState) (d : String) (bytes : Bytes)
    (hb : s.blobs (ImageCache.getCacheKey d) = some bytes)
    (hsmall : bytes.length < ImageCache.minValidBytes) :
    (ImageCache.getCachedImagePath s d).1 = none ∧
    ((ImageCache.getCachedImagePath s d).2).blobs (ImageCache.getCacheKey d) = none ∧
    (ImageCache.getCachedImagePath ((ImageCache.getCachedImagePath s d).2) d).1 = none ∧
    (∀ bbox a b res, (ImageCache.getCachedImages s bbox a b).1 = some res →
      ∀ img ∈ res, img.date ≠ d) := by
  have h2 : ((ImageCache.getCachedImagePath s d).2).blobs (ImageCache.getCacheKey d) = none := by
    show (ImageCache.readImageState s d).blobs (ImageCache.getCacheKey d) = none
    simp [ImageCache.readImageState, hb, hsmall]
  refine ⟨ImageCache.readImage_eq_none_small hb hsmall, h2,
    ImageCache.readImage_eq_none_missing h2, ?_⟩
  intro bbox a b res h img hmem hd
  cases hm : s.metadata with
  | none =>
    rw [ImageCache.getCachedImages_fst_of_none hm] at h
    simp at h
  | some md =>
    rw [ImageCache.getCachedImages_fst_of_some hm] at h
    by_cases hlen :
      (List.insertionSort dateLe (ImageCache.collectValidImages a b s md.images).1).length > 0
    · rw [if_pos hlen] at h
      obtain rfl := (Option.some.inj h).symm
      rw [List.mem_insertionSort] at hmem
      rcases ImageCache.collectValid_mem_servable _ _ _ hmem with ⟨img0, _, hdate, hserv⟩
      rcases hserv with ⟨b2, hb2, hbig⟩
      rw [hdate, hd, hb] at hb2
      cases hb2
      exact absurd hsmall (Nat.not_lt_of_le hbig)
    · rw [if_neg hlen] at h
      simp at h

/-- C4 witness: on a state whose only entry for 2024-02-01 is backed by a
3-byte blob, reading that date yields `none`. -/
theorem undersized_blob_never_served_witness :
    (ImageCache.getCachedImagePath sBad "2024-02-01").1 = none :=
  (undersized_blob_never_served sBad "2024-02-01" [1, 2, 3] (by decide) (by decide)).1

/-- C1: `addImages` is idempotent — for every entry list `E` and every
starting state, running `addImages E` twice persists the same document as
running it once: the second call appends nothing and leaves entries, bounding
box and `lastUpdated` exactly as the first call left them (whatever the two
calls' clock readings). -/
theorem addImages_idempotent (s : ImageCache.CacheState) (t1 t2 : Nat) (E : List CachedImage) :
    ImageCache.addImages (ImageCache.addImages s t1 E) t2 E = ImageCache.addImages s t1 E :=
  ImageCache.addImages_no_new _ t2 E (ImageCache.mem_indexDates_addImages s t1 E)

/-- C5 counterexample: `cacheImage` does not validate before persisting — a
500-byte buffer, far below the 10000-byte minimum, handed directly to
`cacheImage` is written to the blob store all the same, refuting the claim
that `cacheImage` rejects such payloads. -/
theorem cacheImage_writes_undersized :
    ((ImageCache.cacheImage sEmpty "2024-02-01" smallBytes).2).blobs
      (ImageCache.getCacheKey "2024-02-01") = some smallBytes := by
  show (if ImageCache.getCacheKey "2024-02-01" = ImageCache.getCacheKey "2024-02-01"
      then some smallBytes else sEmpty.blobs (ImageCache.getCacheKey "2024-02-01"))
      = some smallBytes
  rw [if_pos rfl]

/-- C5 (amended): `cacheImage` itself performs no validation and writes the
blob unconditionally for every date and byte buffer, returning the data URL;
the write-time size check lives in its caller, the POST route, which skips
`cacheImage` entirely for buffers of 10000 bytes or fewer, so the guarded
write path persists nothing for an undersized buffer.  (No magic-number check
exists anywhere in the code.) -/
theorem cacheImage_caller_validates (s : ImageCache.CacheState) (d : String) (bytes : Bytes) :
    ((ImageCache.cacheImage s d bytes).2).blobs (ImageCache.getCacheKey d) = some bytes ∧
    (ImageCache.cacheImage s d bytes).1 = ImageRef.dataUrl bytes ∧
    (¬ bytes.length > 10000 → postCacheWriteStep s d bytes = s) := by
  refine ⟨?_, rfl, ?_⟩
  · show (if ImageCache.getCacheKey d = ImageCache.getCacheKey d then some bytes
        else s.blobs (ImageCache.getCacheKey d)) = some bytes
    rw [if_pos rfl]
  · intro h
    simp only [postCacheWriteStep, if_neg h]

/-- C5 witness: the POST route's guard skips the 500-byte buffer, leaving the
state untouched. -/
theorem cacheImage_caller_validates_witness :
    postCacheWriteStep sEmpty "2024-02-01" smallBytes = sEmpty :=
  (cacheImage_caller_validates sEmpty "2024-02-01" smallBytes).2.2 (by
    simp only [smallBytes, List.length_replicate]
    omega)

/-- C6 counterexample: starting from no index, `addImages` with a batch that
repeats the date 2024-01-01 appends both copies — the persisted document
violates the no-duplicate-dates invariant, refuting the claim for input lists
that repeat a date within themselves. -/
theorem addImages_duplicate_dates :
    ∃ md, (ImageCache.addImages sEmpty 0 [dupA, dupB]).metadata = some md ∧
      ¬ ImageCache.NoDupDates md.images := by
  refine ⟨{ bbox := zeroBbox, images := [dupA, dupB], lastUpdated := 0 }, rfl, ?_⟩
  intro h
  have := List.rel_of_pairwise_cons h (List.mem_singleton.mpr rfl)
  exact this rfl

/-- C6 (amended): `addImages` preserves the no-duplicate-dates invariant
whenever the input list itself contains no repeated date: if the stored
document has pairwise-distinct dates and the batch has pairwise-distinct
dates, the persisted document still has pairwise-distinct dates.  (A batch
repeating a date not yet indexed gets every repetition appended, as the
counterexample shows, so the restriction on the batch is necessary.) -/
theorem addImages_noDupDates (s : ImageCache.CacheState) (now : Nat) (E : List CachedImage)
    (hs : ∀ md, s.metadata = some md → ImageCache.NoDupDates md.images)
    (hE : ImageCache.NoDupDates E) :
    ∀ md2, (ImageCache.addImages s now E).metadata = some md2 →
      ImageCache.NoDupDates md2.images := by
  intro md2 h2
  rw [ImageCache.addImages_eq] at h2
  by_cases hlen :
    (ImageCache.toAdd ((ImageCache.loadMetadata s).getD (ImageCache.freshDoc now)) E).length > 0
  · rw [if_pos hlen] at h2
    obtain rfl := Option.some.inj h2
    show ImageCache.NoDupDates
      (((ImageCache.loadMetadata s).getD (ImageCache.freshDoc now)).images ++
        ImageCache.toAdd ((ImageCache.loadMetadata s).getD (ImageCache.freshDoc now)) E)
    set md := (ImageCache.loadMetadata s).getD (ImageCache.freshDoc now) with hmd
    have hmdDup : ImageCache.NoDupDates md.images := by
      cases hm : s.metadata with
      | none =>
        rw [show md = ImageCache.freshDoc now by
          rw [hmd]; simp [ImageCache.loadMetadata, hm]]
        exact List.Pairwise.nil
      | some md0 =>
        rw [show md = md0 by rw [hmd]; simp [ImageCache.loadMetadata, hm]]
        exact hs md0 hm
    apply List.pairwise_append.mpr
    refine ⟨hmdDup, List.Pairwise.sublist (List.filter_sublist E) hE, ?_⟩
    intro a ha b hb
    have hbmem := List.mem_filter.mp hb
    have hbnot : b.date ∉ md.images.map (fun i => i.date) := by
      simpa using hbmem.2
    intro hab
    exact hbnot (hab ▸ List.mem_map_of_mem (fun i => i.date) ha)
  · rw [if_neg hlen] at h2
    exact hs md2 h2

/-- C6 witness: a duplicate-free batch into the empty state yields a
duplicate-free document. -/
theorem addImages_noDupDates_witness :
    ImageCache.NoDupDates
      ({ bbox := zeroBbox, images := [dupA], lastUpdated := 0 } : CacheMetadata).images :=
  addImages_noDupDates sEmpty 0 [dupA]
    (fun _ h => absurd h (by simp [sEmpty]))
    (List.pairwise_singleton _ _)
    { bbox := zeroBbox, images := [dupA], lastUpdated := 0 } rfl

/-- C7: `getMissingDates` returns exactly the candidates whose dates are not
among the index's entry dates — membership characterization, disjointness
from the index's dates, recovery of the full candidate set together with the
already-indexed candidates, order preservation (the result is a sublist of
the input), and with no index document every candidate comes back. -/
theorem getMissingDates_spec (s : ImageCache.CacheState) (cands : List String) :
    (∀ d, d ∈ ImageCache.getMissingDates s cands ↔
      (d ∈ cands ∧ d ∉ ImageCache.indexDates s)) ∧
    (∀ d ∈ ImageCache.getMissingDates s cands, d ∉ ImageCache.indexDates s) ∧
    (∀ d ∈ cands, d ∈ ImageCache.getMissingDates s cands ∨ d ∈ ImageCache.indexDates s) ∧
    List.Sublist (ImageCache.getMissingDates s cands) cands ∧
    (s.metadata = none → ImageCache.getMissingDates s cands = cands) := by
  have hgm : ImageCache.getMissingDates s cands =
      cands.filter (fun d => decide (d ∉ ImageCache.indexDates s)) := rfl
  refine ⟨?_, ?_, ?_, ?_, ?_⟩
  · intro d
    rw [hgm, List.mem_filter]
    simp
  · intro d hd
    rw [hgm] at hd
    have hp := (List.mem_filter.mp hd).2
    simpa using hp
  · intro d hd
    by_cases hq : d ∈ ImageCache.indexDates s
    · exact Or.inr hq
    · exact Or.inl (by rw [hgm]; exact List.mem_filter.mpr ⟨hd, by simpa using hq⟩)
  · rw [hgm]
    exact List.filter_sublist cands
  · intro hm
    rw [hgm]
    apply List.filter_eq_self.mpr
    intro a ha
    simp [ImageCache.indexDates_eq_of_none hm]

/-- C7 witness: with no index document, both candidates come back unchanged. -/
theorem getMissingDates_spec_witness :
    ImageCache.getMissingDates sEmpty ["2024-01-01", "2024-01-02"] =
      ["2024-01-01", "2024-01-02"] :=
  (getMissingDates_spec sEmpty ["2024-01-01", "2024-01-02"]).2.2.2.2 rfl

/-- C10: `cacheImage` writes only the blob and never reads or modifies the
index document — metadata is identical before and after, `getMissingDates`
answers exactly as before, and a date cached via `cacheImage` alone is still
reported missing until `addImages` records it. -/
theorem cacheImage_frame (s : ImageCache.CacheState) (d : String) (bytes : Bytes) :
    ((ImageCache.cacheImage s d bytes).2).metadata = s.metadata ∧
    (∀ cands, ImageCache.getMissingDates (ImageCache.cacheImage s d bytes).2 cands =
      ImageCache.getMissingDates s cands) ∧
    (∀ cands, d ∈ cands → d ∉ ImageCache.indexDates s →
      d ∈ ImageCache.getMissingDates (ImageCache.cacheImage s d bytes).2 cands) := by
  refine ⟨rfl, fun cands => rfl, ?_⟩
  intro cands hc hnot
  show d ∈ cands.filter (fun x => decide (x ∉ ImageCache.indexDates s))
  exact List.mem_filter.mpr ⟨hc, by simpa using hnot⟩

/-- C10 witness: caching a blob for 2024-02-01 into the empty state leaves the
date reported missing. -/
theorem cacheImage_frame_witness :
    "2024-02-01" ∈ ImageCache.getMissingDates
      (ImageCache.cacheImage sEmpty "2024-02-01" smallBytes).2 ["2024-02-01"] :=
  (cacheImage_frame sEmpty "2024-02-01" smallBytes).2.2 ["2024-02-01"]
    (List.mem_singleton.mpr rfl) (by decide)

/-- C8 counterexample: with twenty index entries and zero png blob files the
absolute difference between the counts is 20, beyond the slack of 10, yet the
in-query consistency check does not rebuild — it only fires when the files
outnumber the entries. -/
theorem consistencyStep_not_bidirectional :
    mdTwenty.images.length = 20 ∧
    (sNoBlobs.files.filter (fun f => ImageCacheV2.endsWithPng f.name)).length = 0 ∧
    ImageCacheV2.consistencyStep sNoBlobs mdTwenty 0 = (mdTwenty, sNoBlobs) := by
  refine ⟨by decide, rfl, rfl⟩

/-- C8 (amended): the consistency check run inside a range query is
one-directional: it triggers a rebuild exactly when the count of png blob
files exceeds the index entry count by more than the slack of 10; whenever
the file count is at most the entry count plus 10 — in particular whenever
entries outnumber files, however many blobs are missing — it leaves the
document and the state untouched. -/
theorem consistencyStep_trigger (s : ImageCacheV2.State) (md : CacheMetadata) (now : Nat) :
    ((s.files.filter (fun f => ImageCacheV2.endsWithPng f.name)).length >
        md.images.length + 10 →
      ImageCacheV2.consistencyStep s md now =
        (ImageCacheV2.rebuildMetadataFromFiles s.files now, ImageCacheV2.rebuildState s now)) ∧
    ((s.files.filter (fun f => ImageCacheV2.endsWithPng f.name)).length ≤
        md.images.length + 10 →
      ImageCacheV2.consistencyStep s md now = (md, s)) := by
  constructor
  · intro h
    show (if (s.files.filter (fun f => ImageCacheV2.endsWithPng f.name)).length >
          md.images.length + 10 then
        (ImageCacheV2.rebuildMetadataFromFiles s.files now, ImageCacheV2.rebuildState s now)
      else (md, s)) = _
    rw [if_pos h]
  · intro h
    show (if (s.files.filter (fun f => ImageCacheV2.endsWithPng f.name)).length >
          md.images.length + 10 then
        (ImageCacheV2.rebuildMetadataFromFiles s.files now, ImageCacheV2.rebuildState s now)
      else (md, s)) = _
    rw [if_neg (by omega)]

/-- C8 witness: a state with one png file and a one-entry index is within the
slack, so the check changes nothing. -/
theorem consistencyStep_trigger_witness :
    ImageCacheV2.consistencyStep
      { metadata := some { bbox := zeroBbox, images := [imgJan05], lastUpdated := 0 }
        files := [{ name := "2024-01-05.png", mtime := 9 }] }
      { bbox := zeroBbox, images := [imgJan05], lastUpdated := 0 } 3 =
      ({ bbox := zeroBbox, images := [imgJan05], lastUpdated := 0 },
        { metadata := some { bbox := zeroBbox, images := [imgJan05], lastUpdated := 0 }
          files := [{ name := "2024-01-05.png", mtime := 9 }] }) :=
  (consistencyStep_trigger _ _ 3).2 (by decide)

/-- C9: the document produced by `rebuildMetadataFromFiles` has exactly one
entry per png blob key (its entry count equals the count of png files), every
entry carries the date stripped from its file name, the static-path reference
for that date, and the file's storage timestamp as `fetchedAt`; the entries
are sorted ascending by date, the bounding box is reset to the configured
default box, and `lastUpdated` is stamped with the current time. -/
theorem rebuild_spec (files : List ImageCacheV2.FileInfo) (now : Nat) :
    (ImageCacheV2.rebuildMetadataFromFiles files now).images.length =
      (files.filter (fun f => ImageCacheV2.endsWithPng f.name)).length ∧
    List.Sorted dateLe (ImageCacheV2.rebuildMetadataFromFiles files now).images ∧
    (∀ img ∈ (ImageCacheV2.rebuildMetadataFromFiles files now).images,
      ∃ f ∈ files, ImageCacheV2.endsWithPng f.name = true ∧
        img.date = ImageCacheV2.stripPng f.name ∧
        img.imageUrl = ImageRef.staticPath (ImageCacheV2.stripPng f.name) ∧
        img.timestamp = f.mtime) ∧
    (ImageCacheV2.rebuildMetadataFromFiles files now).bbox = ImageCacheV2.defaultBbox ∧
    (ImageCacheV2.rebuildMetadataFromFiles files now).lastUpdated = now := by
  have himg : (ImageCacheV2.rebuildMetadataFromFiles files now).images =
      List.insertionSort dateLe
        ((files.filter (fun f => ImageCacheV2.endsWithPng f.name)).map (fun f =>
          { date := ImageCacheV2.stripPng f.name
            imageUrl := ImageRef.staticPath (ImageCacheV2.stripPng f.name)
            timestamp := f.mtime : CachedImage })) := rfl
  refine ⟨?_, ?_, ?_, rfl, rfl⟩
  · rw [himg, (List.perm_insertionSort dateLe _).length_eq, List.length_map]
  · rw [himg]
    exact List.sorted_insertionSort dateLe _
  · intro img hmem
    rw [himg, List.mem_insertionSort] at hmem
    rcases List.mem_map.mp hmem with ⟨f, hf, hfe⟩
    have hf2 := List.mem_filter.mp hf
    refine ⟨f, hf2.1, hf2.2, ?_, ?_, ?_⟩ <;> rw [← hfe]

/-- C9 witness: on the three-file listing `filesEx`, the rebuilt document
contains the entry for `2024-01-01.png`, and it indeed originates from that
file with `fetchedAt` equal to its modification time. -/
theorem rebuild_spec_witness :
    ∃ f ∈ filesEx, ImageCacheV2.endsWithPng f.name = true ∧
      imgRebuilt.date = ImageCacheV2.stripPng f.name ∧
      imgRebuilt.imageUrl = ImageRef.staticPath (ImageCacheV2.stripPng f.name) ∧
      imgRebuilt.timestamp = f.mtime :=
  (rebuild_spec filesEx 5).2.2.1 imgRebuilt (by decide)
